import Mathlib

/-!
Verification of the Contract Guardian repository's core algorithms.

Text is modelled as `List Char` (Python strings are sequences of code
points, so `len`, slicing and `in` correspond to `List.length`,
`take`/`drop` and infix containment on `List Char`).  Python's
case-lowering, whitespace and word-character classes are modelled for the
ASCII range plus the accented Spanish letters that appear in the source's
keyword tables; regular expressions are modelled by the equivalent
maximal-word-run computations they denote on that alphabet.
-/

/-- Characters matched by a whitespace class (ASCII range). -/
def isSpaceChar (c : Char) : Bool :=
  c == ' ' || c == '\t' || c == '\n' || c == '\r' || c == '\x0b' || c == '\x0c'

/-- Characters matched by a digit class. -/
def isDigitChar (c : Char) : Bool :=
  '0' ≤ c && c ≤ '9'

/-- Characters matched by the class A-Z. -/
def isUpperAscii (c : Char) : Bool :=
  'A' ≤ c && c ≤ 'Z'

/-- Characters of the classifier's letter class: a-z plus the accented
Spanish lowercase letters named in the source patterns. -/
def isSpanishLower (c : Char) : Bool :=
  ('a' ≤ c && c ≤ 'z') || c == 'á' || c == 'é' || c == 'í' || c == 'ó'
    || c == 'ú' || c == 'ñ'

/-- Word characters (for word-boundary semantics): ASCII letters, digits,
underscore, and the accented Spanish letters in both cases. -/
def isWordChar (c : Char) : Bool :=
  ('a' ≤ c && c ≤ 'z') || ('A' ≤ c && c ≤ 'Z') || ('0' ≤ c && c ≤ '9')
    || c == '_' || c == 'á' || c == 'é' || c == 'í' || c == 'ó' || c == 'ú'
    || c == 'ñ' || c == 'Á' || c == 'É' || c == 'Í' || c == 'Ó' || c == 'Ú'
    || c == 'Ñ'

/-- Lower-casing of one character (ASCII plus accented Spanish letters). -/
def toLowerChar (c : Char) : Char :=
  if 'A' ≤ c && c ≤ 'Z' then Char.ofNat (c.toNat + 32)
  else if c == 'Á' then 'á'
  else if c == 'É' then 'é'
  else if c == 'Í' then 'í'
  else if c == 'Ó' then 'ó'
  else if c == 'Ú' then 'ú'
  else if c == 'Ñ' then 'ñ'
  else c

/-- Lower-casing of a text, applied pointwise. -/
def lowerText (t : List Char) : List Char :=
  t.map toLowerChar

/-- Boolean test that `p` is a leading segment of `s`. -/
def startsWithSeq : List Char → List Char → Bool
  | [], _ => true
  | _ :: _, [] => false
  | p :: ps, c :: cs => p == c && startsWithSeq ps cs

/-- Boolean test that `p` occurs contiguously inside `s` (the semantics of
the membership test on strings). -/
def containsSeq (p : List Char) : List Char → Bool
  | [] => startsWithSeq p []
  | c :: cs => startsWithSeq p (c :: cs) || containsSeq p cs

/-- Boolean test that `p` is a trailing segment of `s`. -/
def endsWithSeq (p s : List Char) : Bool :=
  startsWithSeq p.reverse s.reverse

/-- Fuel-driven helper for `countOcc`. -/
def countOccAux (p : List Char) : Nat → List Char → Nat
  | 0, _ => 0
  | _ + 1, [] => 0
  | fuel + 1, c :: cs =>
    if startsWithSeq p (c :: cs) && !p.isEmpty then
      1 + countOccAux p fuel ((c :: cs).drop p.length)
    else
      countOccAux p fuel cs

/-- Number of non-overlapping occurrences of `p` in `s`, scanning left to
right (the semantics of counting substring occurrences). -/
def countOcc (p s : List Char) : Nat :=
  countOccAux p s.length s

/-- Removal of leading and trailing whitespace. -/
def trimText (t : List Char) : List Char :=
  ((t.dropWhile isSpaceChar).reverse.dropWhile isSpaceChar).reverse

/-- Helper for `runsBy`: accumulates the current run (reversed). -/
def runsAux (p : Char → Bool) : List Char → List Char → List (List Char)
  | cur, [] => if cur.isEmpty then [] else [cur.reverse]
  | cur, c :: cs =>
    if p c then runsAux p (c :: cur) cs
    else if cur.isEmpty then runsAux p [] cs
    else cur.reverse :: runsAux p [] cs

/-- Maximal runs of characters satisfying `p`, in order. -/
def runsBy (p : Char → Bool) (t : List Char) : List (List Char) :=
  runsAux p [] t

/-- Maximal runs of word characters of a text, in order.  Word-boundary
anchored patterns over a single word class match exactly those maximal
runs that satisfy the pattern body, so run-based counting models them. -/
def wordRuns (t : List Char) : List (List Char) :=
  runsBy isWordChar t

/-!
Clause classification engine, translated from
`src/mcp_servers/clause_classifier/classifier.py`.
-/

/-- Clause categories of the classifier's enumeration, in declaration
order. -/
inductive ClauseType where
  | TERMINATION
  | LIABILITY
  | PRIVACY
  | PAYMENT
  | MODIFICATION
  | ARBITRATION
  | DURATION
  | RESTRICTIONS
  | INTELLECTUAL_PROPERTY
  | OTHER
deriving DecidableEq

/-- Risk levels of the classifier. -/
inductive RiskLevel where
  | HIGH
  | MEDIUM
  | LOW
deriving DecidableEq

/-- Shorthand turning a list of string literals into texts. -/
def txts (l : List String) : List (List Char) :=
  l.map String.toList

/-- The per-category keyword and red-flag pattern table, in the source's
declaration order (the iteration order of the pattern map). -/
def CLAUSE_PATTERNS : List (ClauseType × List (List Char) × List (List Char)) :=
  [ (.TERMINATION,
      txts ["rescisión", "terminación", "despido", "cancelación", "resolución",
            "vencimiento", "finalización", "cese", "extinción", "ruptura",
            "fin del contrato", "conclusión", "término"],
      txts ["sin causa", "sin previo aviso", "unilateral", "a voluntad",
            "inmediatamente", "discrecional", "arbitraria", "sin motivo"]),
    (.LIABILITY,
      txts ["responsabilidad", "limitación", "indemnización", "daños",
            "reclamación", "garantía", "negligencia", "incumplimiento",
            "reparación", "compensación"],
      txts ["sin responsabilidad", "sin garantía", "se proporciona tal cual",
            "limitación de responsabilidad", "exención de responsabilidad",
            "renuncia de derechos", "sin compensación"]),
    (.PRIVACY,
      txts ["datos personales", "privacidad", "confidencialidad", "información",
            "rgpd", "protección de datos", "consentimiento", "tratamiento",
            "procesamiento", "acceso", "portabilidad"],
      txts ["venta de datos", "datos perpetuos", "sin consentimiento",
            "compartir con terceros", "sin derecho a eliminar",
            "vigilancia", "seguimiento indefinido"]),
    (.PAYMENT,
      txts ["salario", "pago", "precio", "tarifa", "compensación", "honorarios",
            "renta", "cuota", "arancel", "remuneración", "sueldo", "horas"],
      txts ["sin pago", "reducción unilateral", "penalización", "deuda perpetua",
            "cambio sin notificación", "aumento ilimitado", "indexado infinito",
            "sin compensación"]),
    (.MODIFICATION,
      txts ["modificación", "cambio", "enmienda", "actualización", "revisión",
            "variación", "ajuste", "alteración", "transformación"],
      txts ["cambio unilateral", "sin consentimiento", "sin notificación",
            "a discreción", "arbitrario", "sin límite", "permanente"]),
    (.ARBITRATION,
      txts ["arbitraje", "mediación", "resolución de disputas", "tribunal",
            "litigio", "reclamación", "jurisdicción", "competencia",
            "ley aplicable", "foro"],
      txts ["arbitraje obligatorio", "sin derecho a juzgado", "costos arbitraje",
            "jurisdicción extranjera", "ley extranjera aplicable",
            "imposible impugnar", "sin apelación"]),
    (.DURATION,
      txts ["duración", "plazo", "término", "vigencia", "validez", "período",
            "años", "meses", "semanas", "días", "tiempo", "renovación",
            "prórroga"],
      txts ["indefinido", "perpetuo", "renovación automática sin salida",
            "duración ilimitada", "sin fecha de finalización"]),
    (.RESTRICTIONS,
      txts ["prohibición", "restricción", "limitación", "exclusión",
            "consentimiento requerido", "competencia", "no compete",
            "confidencialidad"],
      txts ["restricción perpetua", "restricción mundial", "restricción total",
            "sin excepciones", "irrevocable", "inmodificable"]) ]

/-- Score of one category on a lower-cased clause: one point per keyword
contained, two points per red-flag phrase contained. -/
def typeScore (tl : List Char) (kws rfs : List (List Char)) : Nat :=
  kws.countP (fun k => containsSeq k tl) + 2 * rfs.countP (fun k => containsSeq k tl)

/-- Association list of categories with positive score, in pattern-table
order (the entries of the score map built by the detection loop). -/
def scoreList (tl : List Char) : List (ClauseType × Nat) :=
  CLAUSE_PATTERNS.filterMap fun x =>
    let s := typeScore tl x.2.1 x.2.2
    if 0 < s then some (x.1, s) else none

/-- First entry of maximal score (the behaviour of taking the maximum of a
map by value, which keeps the earliest key on ties). -/
def argmaxFirst : List (ClauseType × Nat) → Option (ClauseType × Nat)
  | [] => none
  | x :: xs =>
    match argmaxFirst xs with
    | none => some x
    | some y => if x.2 < y.2 then some y else some x

/-- Translation of `ClauseClassifier.detect_clause_type`: category scores
from keyword and red-flag containment, argmax with earliest-wins ties,
confidence `min(score / 5, 1.0)` (floats modelled as rationals), and the
`(OTHER, 0)` fallback when no category scores. -/
def detect_clause_type (t : List Char) : ClauseType × ℚ :=
  match argmaxFirst (scoreList (lowerText t)) with
  | none => (.OTHER, 0)
  | some (ty, s) => (ty, min ((s : ℚ) / 5) 1)

/-- High-risk phrase list of `calculate_risk_level` (30 points each). -/
def high_risk_terms : List (List Char) :=
  txts ["sin causa", "sin previo aviso", "unilateral", "a discreción",
        "sin responsabilidad", "sin garantía", "sin consentimiento",
        "perpetuo", "indefinido", "irrevocable", "inmodificable",
        "se proporciona tal cual", "renuncia de derechos", "renuncia a",
        "sin compensación", "inmediatamente", "discrecional", "arbitraria",
        "exención", "limitación de responsabilidad"]

/-- Medium-risk phrase list of `calculate_risk_level` (15 points each). -/
def medium_risk_terms : List (List Char) :=
  txts ["modificación", "cambio", "arbitraje", "limitación",
        "penalización", "actualización", "revisión"]

/-- Nominalization suffixes of the jargon-density pattern. -/
def nominalSuffixes : List (List Char) :=
  txts ["ción", "dad", "miento"]

/-- Test that a maximal word run is matched by the jargon pattern: all its
characters in the letter class and a nominalization suffix at its end,
preceded by at least one more letter. -/
def isNominalRun (r : List Char) : Bool :=
  r.all isSpanishLower &&
    nominalSuffixes.any (fun suf => endsWithSeq suf r && suf.length < r.length)

/-- Number of word occurrences matched by the jargon pattern in a
lower-cased text. -/
def complexTermCount (tl : List Char) : Nat :=
  (wordRuns tl).countP isNominalRun

/-- Translation of `ClauseClassifier.calculate_risk_level`: additive score
from high-risk phrases (+30 each when contained), medium-risk phrases
(+15 each when contained), a +20 length bonus above 500 characters, a
jargon bonus of 3 per nominalization word capped at 30, a floor of 20 for
Termination and Liability clauses scoring below 10, a clamp at 100, and
the threshold mapping to the risk level. -/
def calculate_risk_level (t : List Char) (ty : ClauseType) : RiskLevel × Nat :=
  let tl := lowerText t
  let s1 := high_risk_terms.foldl (fun acc term => if containsSeq term tl then acc + 30 else acc) 0
  let s2 := medium_risk_terms.foldl (fun acc term => if containsSeq term tl then acc + 15 else acc) s1
  let s3 := if 500 < t.length then s2 + 20 else s2
  let s4 := s3 + min (complexTermCount tl * 3) 30
  let s5 := if s4 < 10 && (ty == .TERMINATION || ty == .LIABILITY) then 20 else s4
  let score := min s5 100
  let level :=
    if 50 ≤ score then RiskLevel.HIGH
    else if 25 ≤ score then RiskLevel.MEDIUM
    else RiskLevel.LOW
  (level, score)

/-- Stop-word list of `extract_key_terms`, in source order (the source
writes a set literal; duplicates are irrelevant to membership). -/
def stop_words : List (List Char) :=
  txts ["el", "la", "de", "y", "a", "en", "del", "que", "por", "es",
        "se", "los", "las", "al", "una", "un", "este", "esta", "este",
        "será", "puede", "debe", "pueden", "deben", "son", "está",
        "han", "sea", "sin", "con", "para", "por", "como", "más"]

/-- Words eligible as key terms: maximal letter runs of length at least 4
in the lower-cased clause, with stop words removed, in text order and
with repetitions. -/
def qualifyingTerms (t : List Char) : List (List Char) :=
  ((wordRuns (lowerText t)).filter
      (fun r => r.all isSpanishLower && 4 ≤ r.length)).filter
    (fun w => !(stop_words.contains w))

/-- Hypothesis describing a possible enumeration of the deduplicating set
built by `extract_key_terms`: the set's iteration order is not specified
by the language semantics (it depends on the process hash seed), so the
model quantifies over every enumeration of the distinct eligible words. -/
def validSetOrder (t : List Char) (order : List (List Char)) : Prop :=
  List.Perm order (qualifyingTerms t).dedup

instance (t : List Char) (order : List (List Char)) :
    Decidable (validSetOrder t order) :=
  List.decidablePerm order (qualifyingTerms t).dedup

/-- Translation of `ClauseClassifier.extract_key_terms` for one fixed set
enumeration: the first five entries of the enumeration, sorted
lexicographically (list order on code points, the sort order of strings). -/
def extract_key_terms (_t : List Char) (order : List (List Char)) : List (List Char) :=
  List.insertionSort (fun a b : List Char => a ≤ b) (order.take 5)

/-- Applicable-law table of the classifier (absent categories yield the
empty default). -/
def APPLICABLE_LAWS (ty : ClauseType) : List (List Char) :=
  match ty with
  | .TERMINATION => txts ["LAB_9", "LAB_14", "LAR_9"]
  | .LIABILITY => txts ["TOS_4", "TOS_8", "TOS_10"]
  | .PRIVACY => txts ["TOS_6", "TOS_7"]
  | .PAYMENT => txts ["LAB_7", "LAB_4", "LAR_6"]
  | .MODIFICATION => txts ["TOS_12"]
  | .ARBITRATION => txts ["TOS_13", "TOS_14"]
  | .DURATION => txts ["LAB_6", "LAR_3"]
  | .RESTRICTIONS => txts ["LAB_8"]
  | .INTELLECTUAL_PROPERTY => []
  | .OTHER => []

/-- Legal-issue table of the classifier, keyed by type and risk level;
the clause text argument is accepted and ignored as in the source. -/
def generate_legal_issue (_t : List Char) (ty : ClauseType) (lv : RiskLevel) : List Char :=
  match ty, lv with
  | .TERMINATION, .HIGH => "Rescisión unilateral sin causa y sin previo aviso - VIOLACIÓN de derechos laborales".toList
  | .TERMINATION, .MEDIUM => "Terminación con condiciones no estándar".toList
  | .TERMINATION, .LOW => "Procedimiento de terminación claro".toList
  | .LIABILITY, .HIGH => "Limitación de responsabilidad indebida o injusta - ABUSIVA".toList
  | .LIABILITY, .MEDIUM => "Limitación de responsabilidad moderada".toList
  | .LIABILITY, .LOW => "Limitación de responsabilidad razonable".toList
  | .PRIVACY, .HIGH => "Recopilación indefinida de datos sin consentimiento - VIOLACIÓN RGPD".toList
  | .PRIVACY, .MEDIUM => "Tratamiento de datos con limitaciones".toList
  | .PRIVACY, .LOW => "Protección de datos conforme a RGPD".toList
  | .PAYMENT, .HIGH => "Cambio unilateral de precios o reducción sin causa".toList
  | .PAYMENT, .MEDIUM => "Actualización de precios periódica".toList
  | .PAYMENT, .LOW => "Precios fijos durante el contrato".toList
  | .MODIFICATION, .HIGH => "Modificación unilateral sin consentimiento - ABUSIVA".toList
  | .MODIFICATION, .MEDIUM => "Modificación con previo aviso".toList
  | .MODIFICATION, .LOW => "Modificación por acuerdo mutuo".toList
  | .ARBITRATION, .HIGH => "Arbitraje obligatorio sin derecho a tribunal - LIMITACIÓN DE DERECHOS".toList
  | .ARBITRATION, .MEDIUM => "Mediación como primer paso".toList
  | .ARBITRATION, .LOW => "Resolución alternativa de disputas".toList
  | .DURATION, .HIGH => "Duración indefinida o perpetua - SIN SALIDA".toList
  | .DURATION, .MEDIUM => "Renovación automática con salida".toList
  | .DURATION, .LOW => "Duración definida con opción de renovación".toList
  | .RESTRICTIONS, .HIGH => "Restricción perpetua e ilimitada - ABUSIVA".toList
  | .RESTRICTIONS, .MEDIUM => "Restricción temporal o limitada".toList
  | .RESTRICTIONS, .LOW => "Restricción razonable y limitada".toList
  | .INTELLECTUAL_PROPERTY, _ => "Problema legal desconocido".toList
  | .OTHER, _ => "Problema legal desconocido".toList

/-- Recommendation synthesis of the classifier: level-specific strings,
then a type-specific tip for four categories, truncated to three. -/
def generate_recommendations (ty : ClauseType) (lv : RiskLevel) : List (List Char) :=
  let base :=
    match lv with
    | .HIGH => txts ["⚠️ CRÍTICO: REVISAR CON ABOGADO - Riesgos significativos",
                     "📋 NO FIRMES sin negociar esta cláusula",
                     "💬 Solicita cambios ANTES de firmar"]
    | .MEDIUM => txts ["⚠️ REVISAR: Asegúrate de entender esta cláusula",
                       "📋 Considera solicitar cambios en los términos"]
    | .LOW => txts ["✅ Esta cláusula parece razonable",
                    "📋 Pero aún debes revisar según tu contexto"]
  let extra :=
    match ty with
    | .TERMINATION => txts ["💡 Exige que se especifiquen los motivos válidos de terminación"]
    | .LIABILITY => txts ["💡 Verifica cobertura completa de daños y responsabilidades"]
    | .PRIVACY => txts ["💡 Exige derechos de acceso, rectificación y eliminación de datos"]
    | .MODIFICATION => txts ["💡 Requiere TU consentimiento para cambios importantes"]
    | _ => []
  (base ++ extra).take 3

/-- Record produced for each classified clause. -/
structure ClassifiedClause where
  id : List Char
  clause_text : List Char
  clause_type : ClauseType
  risk_level : RiskLevel
  risk_score : Nat
  legal_issue : List Char
  applicable_laws : List (List Char)
  recommendations : List (List Char)
  key_terms : List (List Char)
deriving DecidableEq

/-- Translation of `ClauseClassifier.classify_clause`; the `order`
parameter fixes one enumeration of the key-term set (see
`validSetOrder`).  The stored clause text is truncated to the first 200
characters while every analysis runs on the full text. -/
def classify_clause (t : List Char) (cid : List Char) (order : List (List Char)) : ClassifiedClause :=
  let det := detect_clause_type t
  let risk := calculate_risk_level t det.1
  { id := cid
    clause_text := t.take 200
    clause_type := det.1
    risk_level := risk.1
    risk_score := risk.2
    legal_issue := generate_legal_issue t det.1 risk.1
    applicable_laws := APPLICABLE_LAWS det.1
    recommendations := generate_recommendations det.1 risk.1
    key_terms := extract_key_terms t order }

/-!
Segmentation (`ClauseClassifier.split_clauses`).  The multiline numbered
pattern and the sentence-boundary pattern are modelled as left-to-right
scanners over the text, anchored exactly where the patterns anchor.
-/

/-- Attempt to match, at the current position, optional whitespace, one or
more digits, a dot or dash, and mandatory trailing whitespace (the
numbered-clause pattern anchored at a line start).  Returns the text
after the match and whether the match's last character was a newline. -/
def matchNum (cur : List Char) : Option (List Char × Bool) :=
  let s1 := cur.dropWhile isSpaceChar
  let ds := s1.takeWhile isDigitChar
  if ds.isEmpty then none
  else
    match s1.drop ds.length with
    | [] => none
    | p :: s3 =>
      if p == '.' || p == '-' then
        let w := s3.takeWhile isSpaceChar
        if w.isEmpty then none
        else some (s3.drop w.length, w.getLast? == some '\n')
      else none

/-- Scanner splitting a text at every numbered-clause match; matches are
attempted only at the start of the text or right after a newline. -/
def scanNumAux : Nat → Bool → List Char → List Char → List (List Char)
  | 0, _, acc, _ => [acc.reverse]
  | fuel + 1, lineStart, acc, cur =>
    match cur with
    | [] => [acc.reverse]
    | c :: rest =>
      if lineStart then
        match matchNum cur with
        | some (after, nl) => acc.reverse :: scanNumAux fuel nl [] after
        | none => scanNumAux fuel (c == '\n') (c :: acc) rest
      else scanNumAux fuel (c == '\n') (c :: acc) rest

/-- Segments of a text around numbered-clause matches (the pieces a
pattern split produces, captured group numbers dropped). -/
def numberedSegments (t : List Char) : List (List Char) :=
  scanNumAux t.length true [] t

/-- Search for a numbered-clause match anywhere at a line start. -/
def hasNumMatchAux : Nat → Bool → List Char → Bool
  | 0, _, _ => false
  | fuel + 1, lineStart, cur =>
    match cur with
    | [] => false
    | c :: rest =>
      (lineStart && (matchNum cur).isSome) || hasNumMatchAux fuel (c == '\n') rest

/-- Test of the first segmentation strategy's trigger. -/
def hasNumberedMatch (t : List Char) : Bool :=
  hasNumMatchAux t.length true t

/-- Clauses of the numbered strategy: the leading segment is dropped,
the rest are stripped and kept when longer than 10 characters. -/
def numberedClauses (t : List Char) : List (List Char) :=
  ((numberedSegments t).drop 1).filterMap fun c =>
    let c' := trimText c
    if !c'.isEmpty && 10 < c'.length then some c' else none

/-- Split at every occurrence of two consecutive newlines, left to right
and non-overlapping. -/
def splitNN : List Char → List (List Char)
  | '\n' :: '\n' :: rest => [] :: splitNN rest
  | c :: rest =>
    match splitNN rest with
    | [] => [[c]]
    | s :: ss => (c :: s) :: ss
  | [] => [[]]

/-- Containment test for two consecutive newlines. -/
def hasNN : List Char → Bool
  | '\n' :: '\n' :: _ => true
  | _ :: rest => hasNN rest
  | [] => false

/-- Scanner splitting at sentence boundaries: a whitespace run removed
when it directly follows one of the three sentence-final marks and is
directly followed by an ASCII capital letter. -/
def scanSentAux : Nat → Option Char → List Char → List Char → List (List Char)
  | 0, _, acc, _ => [acc.reverse]
  | fuel + 1, prev, acc, cur =>
    match cur with
    | [] => [acc.reverse]
    | c :: rest =>
      if (prev == some '.' || prev == some '!' || prev == some '?') && isSpaceChar c then
        let w := cur.takeWhile isSpaceChar
        match cur.drop w.length with
        | u :: after =>
          if isUpperAscii u then
            acc.reverse :: scanSentAux fuel (w.getLast?) [] (u :: after)
          else scanSentAux fuel (some c) (c :: acc) rest
        | [] => scanSentAux fuel (some c) (c :: acc) rest
      else scanSentAux fuel (some c) (c :: acc) rest

/-- Segments of a text around sentence-boundary matches. -/
def sentenceSegments (t : List Char) : List (List Char) :=
  scanSentAux t.length none [] t

/-- Search for a sentence-boundary match anywhere in the text. -/
def hasSentAux : Nat → Option Char → List Char → Bool
  | 0, _, _ => false
  | fuel + 1, prev, cur =>
    match cur with
    | [] => false
    | c :: rest =>
      ((prev == some '.' || prev == some '!' || prev == some '?') && isSpaceChar c &&
        (match cur.drop (cur.takeWhile isSpaceChar).length with
         | u :: _ => isUpperAscii u
         | [] => false)) || hasSentAux fuel (some c) rest

/-- Test of the third segmentation strategy's trigger. -/
def hasSentBoundary (t : List Char) : Bool :=
  hasSentAux t.length none t

/-- Split at every occurrence of one separator character. -/
def splitChar (sep : Char) : List Char → List (List Char)
  | [] => [[]]
  | c :: rest =>
    if c == sep then [] :: splitChar sep rest
    else
      match splitChar sep rest with
      | [] => [[c]]
      | s :: ss => (c :: s) :: ss

/-- Translation of `ClauseClassifier.split_clauses`: the input is
stripped, the first applicable strategy among numbered clauses,
blank-line paragraphs, sentence boundaries and single newlines produces
candidate clauses, and each candidate is stripped and kept only when
non-empty and strictly longer than 15 characters. -/
def split_clauses (contract_text : List Char) : List (List Char) :=
  let t := trimText contract_text
  let clauses :=
    if hasNumberedMatch t then numberedClauses t
    else if hasNN t then (splitNN t).map trimText
    else if hasSentBoundary t then sentenceSegments t
    else splitChar '\n' t
  clauses.filterMap fun c =>
    let c' := trimText c
    if !c'.isEmpty && 15 < c'.length then some c' else none

/-!
Reference search engine, translated from
`src/mcp_servers/law_retriever/laws_retriever_server.py` (`law_lookup`).
-/

/-- Reference record of the law retriever; the fields the lookup reads
(absent optional fields are modelled by their empty defaults). -/
structure LawArticle where
  id : List Char
  title : List Char
  text : List Char
  keywords : List (List Char)
  notes : List Char
deriving DecidableEq

/-- Join texts with one separator between consecutive entries. -/
def joinWith (sep : List Char) : List (List Char) → List Char
  | [] => []
  | [x] => x
  | x :: xs => x ++ sep ++ joinWith sep xs

/-- Searchable string of a record: lower-cased title, body text, joined
keyword list and notes, separated by single spaces. -/
def fullContent (a : LawArticle) : List Char :=
  lowerText a.title ++ [' '] ++ lowerText a.text ++ [' ']
    ++ joinWith [' '] (a.keywords.map lowerText) ++ [' '] ++ lowerText a.notes

/-- Base relevance score: the number of query tokens contained in the
searchable string. -/
def baseScore (tokens : List (List Char)) (a : LawArticle) : Nat :=
  tokens.countP fun tok => containsSeq tok (fullContent a)

/-- Full relevance score: the base score plus a bonus of 2 when any query
token is contained in the lower-cased title. -/
def lawScore (tokens : List (List Char)) (a : LawArticle) : Nat :=
  baseScore tokens a
    + (if tokens.any (fun tok => containsSeq tok (lowerText a.title)) then 2 else 0)

/-- Query tokens of a stripped, lower-cased topic: its whitespace-run
words of length above 3, or the whole topic when none qualifies. -/
def queryTokens (tp : List Char) : List (List Char) :=
  let toks := (runsBy (fun c => !isSpaceChar c) tp).filter fun w => 3 < w.length
  if toks.isEmpty then [tp] else toks

/-- Reply of the lookup: a missing-topic error or a ranked result list. -/
inductive LookupReply where
  | missingTopic
  | ok (tokens : List (List Char)) (results : List LawArticle)
deriving DecidableEq

/-- Scoring step of the lookup loop: a record scoring positively is kept,
paired with its score including the title bonus; a record scoring zero is
dropped. -/
def scoredEntry (toks : List (List Char)) (a : LawArticle) : Option (LawArticle × Nat) :=
  let b := baseScore toks a
  if 0 < b then
    some (a, b + (if toks.any (fun tok => containsSeq tok (lowerText a.title)) then 2 else 0))
  else none

/-- Translation of `law_lookup`: empty topics are rejected; otherwise
positively scoring records are ranked by score (descending, stable — the
language's list sort is stable, as is ordered insertion) and the first
five are returned. -/
def law_lookup (topic : List Char) (laws : List LawArticle) : LookupReply :=
  let tp := lowerText (trimText topic)
  if tp.isEmpty then .missingTopic
  else
    let toks := queryTokens tp
    let sorted := List.insertionSort (fun x y : LawArticle × Nat => y.2 ≤ x.2)
      (laws.filterMap (scoredEntry toks))
    .ok toks ((sorted.map Prod.fst).take 5)

/-!
Agent orchestration loop, translated from `src/agent/orchestrator.py`
(`OrchestratorWithLLM.analyze_contract_streaming` and
`_parse_tool_call`).  The reasoning service is abstracted as a stream of
per-turn results; structured payloads are modelled by a standard
recursive-descent reading of the object language (numeric leaves are
modelled as integers, which covers every payload shape the loop
distinguishes).
-/

/-- Structured values of the payload language. -/
inductive JsonVal where
  | null
  | bool (b : Bool)
  | num (n : Int)
  | str (s : List Char)
  | arr (items : List JsonVal)
  | obj (fields : List (List Char × JsonVal))

/-- Truthiness of a decoded payload (the semantics of using the decoded
value as a branch condition). -/
def truthy : JsonVal → Bool
  | .null => false
  | .bool b => b
  | .num n => n != 0
  | .str s => !s.isEmpty
  | .arr l => !l.isEmpty
  | .obj l => !l.isEmpty

/-- String-body reading helper: characters until an unescaped quote, with
the basic escape sequences. -/
def parseStrBody : Nat → List Char → Option (List Char × List Char)
  | 0, _ => none
  | _ + 1, [] => none
  | fuel + 1, c :: rest =>
    if c == '"' then some ([], rest)
    else if c == '\\' then
      match rest with
      | [] => none
      | e :: rest2 =>
        let dec : Option Char :=
          if e == 'n' then some '\n'
          else if e == 't' then some '\t'
          else if e == 'r' then some '\r'
          else if e == '"' then some '"'
          else if e == '\\' then some '\\'
          else if e == '/' then some '/'
          else none
        match dec with
        | none => none
        | some d =>
          match parseStrBody fuel rest2 with
          | some (s, rem) => some (d :: s, rem)
          | none => none
    else
      match parseStrBody fuel rest with
      | some (s, rem) => some (c :: s, rem)
      | none => none

/-- Skip whitespace. -/
def skipWs (s : List Char) : List Char :=
  s.dropWhile isSpaceChar

mutual

/-- Value reading: dispatch on the first non-blank character. -/
def parseVal : Nat → List Char → Option (JsonVal × List Char)
  | 0, _ => none
  | fuel + 1, s =>
    match skipWs s with
    | [] => none
    | c :: rest =>
      if c == '"' then
        match parseStrBody fuel rest with
        | some (str, rem) => some (.str str, rem)
        | none => none
      else if c == '{' then
        match skipWs rest with
        | '}' :: rem => some (.obj [], rem)
        | _ => match parseObjItems fuel rest with
               | some (fields, rem) => some (.obj fields, rem)
               | none => none
      else if c == '[' then
        match skipWs rest with
        | ']' :: rem => some (.arr [], rem)
        | _ => match parseArrItems fuel rest with
               | some (items, rem) => some (.arr items, rem)
               | none => none
      else if c == 't' then
        if startsWithSeq "rue".toList rest then some (.bool true, rest.drop 3) else none
      else if c == 'f' then
        if startsWithSeq "alse".toList rest then some (.bool false, rest.drop 4) else none
      else if c == 'n' then
        if startsWithSeq "ull".toList rest then some (.null, rest.drop 3) else none
      else if c == '-' then
        let ds := rest.takeWhile isDigitChar
        if ds.isEmpty then none
        else some (.num (-(Int.ofNat (Nat.ofDigits 10 (ds.map (fun d => d.toNat - 48)).reverse))),
                   rest.drop ds.length)
      else if isDigitChar c then
        let ds := (c :: rest).takeWhile isDigitChar
        some (.num (Int.ofNat (Nat.ofDigits 10 (ds.map (fun d => d.toNat - 48)).reverse)),
              (c :: rest).drop ds.length)
      else none

/-- Array-item reading after the opening bracket (at least one item). -/
def parseArrItems : Nat → List Char → Option (List JsonVal × List Char)
  | 0, _ => none
  | fuel + 1, s =>
    match parseVal fuel s with
    | none => none
    | some (v, rem) =>
      match skipWs rem with
      | ',' :: rem2 =>
        match parseArrItems fuel rem2 with
        | some (items, rem3) => some (v :: items, rem3)
        | none => none
      | ']' :: rem2 => some ([v], rem2)
      | _ => none

/-- Object-field reading after the opening brace (at least one field). -/
def parseObjItems : Nat → List Char → Option (List (List Char × JsonVal) × List Char)
  | 0, _ => none
  | fuel + 1, s =>
    match skipWs s with
    | '"' :: rest =>
      match parseStrBody fuel rest with
      | none => none
      | some (key, rem) =>
        match skipWs rem with
        | ':' :: rem2 =>
          match parseVal fuel rem2 with
          | none => none
          | some (v, rem3) =>
            match skipWs rem3 with
            | ',' :: rem4 =>
              match parseObjItems fuel rem4 with
              | some (fields, rem5) => some ((key, v) :: fields, rem5)
              | none => none
            | '}' :: rem4 => some ([(key, v)], rem4)
            | _ => none
        | _ => none
    | _ => none

end

/-- Decoding of a whole payload string: one value, then nothing but
whitespace. -/
def jsonLoads (s : List Char) : Option JsonVal :=
  match parseVal (s.length + 1) s with
  | some (v, rem) => if (skipWs rem).isEmpty then some v else none
  | none => none

/-- Field access on a decoded payload (duplicate keys: the last one wins,
as in decoded objects). -/
def getField (v : JsonVal) (key : List Char) : Option JsonVal :=
  match v with
  | .obj fields => (fields.reverse.find? fun kv => kv.1 == key).map Prod.snd
  | _ => none

/-- Translation of `OrchestratorWithLLM._parse_tool_call`: the substring
from the first opening brace to the last closing brace is decoded; any
failure (no opening brace, no closing brace, or a decoding error) yields
no tool call, never an exception. -/
def parse_tool_call (t : List Char) : Option JsonVal :=
  if t.any (· == '{') then
    jsonLoads ((((t.reverse).dropWhile (· != '}')).reverse).dropWhile (· != '{'))
  else none

/-- Branch condition of the loop on one response: the decoded payload
used as a truth value. -/
def toolRequested (t : List Char) : Bool :=
  match parse_tool_call t with
  | some v => truthy v
  | none => false

/-- Progress events emitted by the session generator (streamed response
fragments are abstracted into the per-turn response). -/
inductive AgentEvent where
  | extracting
  | analyzing (turn : Nat)
  | mcpCalls
  | mcpDone
  | completeEvent
  | errorEvent (message : List Char)
deriving DecidableEq

/-- Result of one reasoning call: the accumulated response text, or the
message of a raised transport error. -/
abbrev TurnResult := Except (List Char) (List Char)

/-- Terminal situation of the agent loop. -/
inductive Outcome where
  | completed (response : List Char) (turn : Nat)
  | errored (message : List Char)
  | maxTurnsExhausted
deriving DecidableEq

/-- Loop body of `analyze_contract_streaming`: at most `fuel` further
turns starting at index `turn`.  A reasoning failure emits an error event
and ends the session; a truthy decoded payload dispatches a tool and
consumes the turn; any other response completes the session at once. -/
def agentLoopGo (responses : Nat → TurnResult) : Nat → Nat → List AgentEvent × Outcome
  | 0, _ => ([], .maxTurnsExhausted)
  | fuel + 1, turn =>
    match responses turn with
    | .error msg => ([.analyzing turn, .errorEvent msg], .errored msg)
    | .ok r =>
      if toolRequested r then
        let next := agentLoopGo responses fuel (turn + 1)
        (.analyzing turn :: .mcpCalls :: .mcpDone :: next.1, next.2)
      else
        ([.analyzing turn, .completeEvent], .completed r turn)

/-- The agent loop runs for at most three turns. -/
def agentLoop (responses : Nat → TurnResult) : List AgentEvent × Outcome :=
  agentLoopGo responses 3 0

/-- Result of one whole session as observed by the caller: either the
generator raises (an exception escapes, with the events emitted before
it), or it runs to rest normally with its events and terminal outcome. -/
inductive SessionRun where
  | raised (message : List Char) (events : List AgentEvent)
  | normal (events : List AgentEvent) (outcome : Outcome)
deriving DecidableEq

/-- Translation of `analyze_contract_streaming`: the extracting event is
emitted, then the document text is requested; an extraction failure
propagates out of the generator uncaught, otherwise the agent loop runs. -/
def analyze_contract_streaming (extraction : Except (List Char) (List Char))
    (responses : Nat → TurnResult) : SessionRun :=
  match extraction with
  | .error msg => .raised msg [.extracting]
  | .ok _text =>
    let run := agentLoop responses
    .normal (.extracting :: run.1) run.2

/-- Terminal marker described by the specification, modelled from the
spec (the check is described in the reasoning-loop section; the source's
loop never performs it).  Containment is case-insensitive. -/
def containsMarker (t : List Char) : Bool :=
  containsSeq "informe final:".toList (lowerText t)

/-!
Specification-side reformulations and concrete inputs used by the claim
statements.
-/

/-- Number of high-risk phrases contained in a lower-cased clause. -/
def specHighCount (tl : List Char) : Nat :=
  high_risk_terms.countP fun p => containsSeq p tl

/-- Number of medium-risk phrases contained in a lower-cased clause. -/
def specMedCount (tl : List Char) : Nat :=
  medium_risk_terms.countP fun p => containsSeq p tl

/-- Length bonus of the risk score. -/
def lenBonus (t : List Char) : Nat :=
  if 500 < t.length then 20 else 0

/-- Capped jargon bonus of the risk score. -/
def jargonBonus (tl : List Char) : Nat :=
  min (complexTermCount tl * 3) 30

/-- Categories presumed risk-bearing by the floor rule. -/
def riskyType (ty : ClauseType) : Bool :=
  ty == .TERMINATION || ty == .LIABILITY

/-- Raw additive risk score, written as the sum of its four independent
components (phrases counted once each when contained). -/
def specRawScore (t : List Char) : Nat :=
  30 * specHighCount (lowerText t) + 15 * specMedCount (lowerText t)
    + lenBonus t + jargonBonus (lowerText t)

/-- Risk score after the floor for risky categories and the clamp at
100. -/
def specRiskScore (t : List Char) (ty : ClauseType) : Nat :=
  min (if specRawScore t < 10 && riskyType ty then 20 else specRawScore t) 100

/-- Risk level determined by the fixed thresholds. -/
def specRiskLevel (t : List Char) (ty : ClauseType) : RiskLevel :=
  if 50 ≤ specRiskScore t ty then .HIGH
  else if 25 ≤ specRiskScore t ty then .MEDIUM
  else .LOW

/-- Sum over a phrase list of the number of occurrences of each phrase in
a text (the per-occurrence reading of the scoring rule). -/
def occSum (terms : List (List Char)) (tl : List Char) : Nat :=
  (terms.map fun p => countOcc p tl).sum

/-- Risk score as the specification phrases it: 30 points per occurrence
of a high-risk phrase and 15 per occurrence of a medium-risk phrase,
with the length bonus, jargon bonus, floor and clamp unchanged. -/
def claimOccRiskScore (t : List Char) (ty : ClauseType) : Nat :=
  let raw := 30 * occSum high_risk_terms (lowerText t)
    + 15 * occSum medium_risk_terms (lowerText t) + lenBonus t + jargonBonus (lowerText t)
  min (if raw < 10 && riskyType ty then 20 else raw) 100

/-- Clause text whose sole high-risk phrase occurs twice. -/
def riskCexText : List Char :=
  "unilateral y unilateral".toList

/-- Base clause of the monotonicity counterexample: one high-risk phrase
and one nominalization word, which ends the text. -/
def monoBaseText : List Char :=
  "unilateral operación".toList

/-- The high-risk phrase appended in the monotonicity counterexample. -/
def monoPhrase : List Char :=
  "unilateral".toList

/-- Alphabetically sorted first five distinct eligible key terms (what
the specification says `extract_key_terms` returns). -/
def sortedKeyTerms (t : List Char) : List (List Char) :=
  (List.insertionSort (fun a b : List Char => a ≤ b) (qualifyingTerms t).dedup).take 5

/-- Claim C9 as stated: for every enumeration of the key-term set, the
result is the alphabetically first five distinct eligible terms. -/
def keyTermsClaim : Prop :=
  ∀ t order, validSetOrder t order → extract_key_terms t order = sortedKeyTerms t

/-- Clause with six distinct eligible key terms. -/
def keyTermsText : List Char :=
  "bravo delta carta felino grano alfa".toList

/-- One possible set-enumeration order for `keyTermsText` (reverse
alphabetical). -/
def keyTermsOrder : List (List Char) :=
  txts ["grano", "felino", "delta", "carta", "bravo", "alfa"]

/-- Candidate clauses produced by the first segmentation strategy that
fires, before any trimming or length filtering. -/
def strategyCandidates (t : List Char) : List (List Char) :=
  if hasNumberedMatch t then (numberedSegments t).drop 1
  else if hasNN t then splitNN t
  else if hasSentBoundary t then sentenceSegments t
  else splitChar '\n' t

/-- Two-line input whose first candidate clause is exactly 15 characters
long after trimming. -/
def splitCexText : List Char :=
  "abcdefghijklmno\nabcdefghijklmnop".toList

/-- Response text with no structured payload and no terminal marker. -/
def plainResponse : List Char :=
  "the document looks acceptable overall".toList

/-- Response text whose payload decodes to an object without a `tool`
field. -/
def noToolFieldResponse : List Char :=
  "\x7b\"x\": 1\x7d".toList

/-- Example response of the specification: payload with tool and argument
amid surrounding prose. -/
def toolCallResponse : List Char :=
  "analysis text \x7b\"tool\": \"consultar_ley\", \"args\": \"fianza\"\x7d trailing".toList

/-- Example response of the specification: structurally invalid payload. -/
def malformedResponse : List Char :=
  "\x7b\"tool\": \x7d".toList

/-- Claim C1 as stated: a response stream that never carries the terminal
marker and never requests a tool makes the loop stop only at the turn
ceiling, never entering Complete. -/
def loopMarkerClaim : Prop :=
  ∀ rs : Nat → List Char,
    (∀ n, containsMarker (rs n) = false ∧ toolRequested (rs n) = false) →
    (agentLoop fun n => .ok (rs n)).2 = .maxTurnsExhausted

/-- Claim C4 as stated: a response is treated as a tool request exactly
when its payload decodes and carries a `tool` field. -/
def toolFieldClaim : Prop :=
  ∀ t, toolRequested t = true ↔
    ∃ v, parse_tool_call t = some v ∧ getField v "tool".toList ≠ none

/-- Claim C5 as stated: an extraction failure ends the session in an
emitted terminal error outcome rather than an escaping exception. -/
def extractionErrorClaim : Prop :=
  ∀ (msg : List Char) (rs : Nat → TurnResult),
    ∃ evs, analyze_contract_streaming (.error msg) rs = .normal evs (.errored msg)

/-- Reference record used by the search witnesses: topic word in the
title, another in the body. -/
def lawFianza : LawArticle :=
  { id := "LAR_4".toList
    title := "Fianza en arrendamientos".toList
    text := "regula la fianza del alquiler".toList
    keywords := txts ["fianza", "depósito"]
    notes := [] }

/-- Reference record used by the search witnesses: topic word only in the
body. -/
def lawAlquiler : LawArticle :=
  { id := "LAR_9".toList
    title := "Otra disposición".toList
    text := "alquiler de viviendas".toList
    keywords := []
    notes := [] }

/-- Search topic used by the witnesses. -/
def topicFianza : List Char :=
  "fianza alquiler".toList

/-- Clause text of length 201 used by the truncation witness. -/
def longClause : List Char :=
  List.replicate 201 'a'

/-- Clause naming one termination keyword, used by the detection witness. -/
def terminationClause : List Char :=
  "terminación del contrato".toList

/-!
Helper lemmas about the text primitives.
-/

theorem startsWithSeq_append {p s : List Char} (u : List Char)
    (h : startsWithSeq p s = true) : startsWithSeq p (s ++ u) = true := by
  induction p generalizing s with
  | nil => simp [startsWithSeq]
  | cons a ps ih =>
    cases s with
    | nil => simp [startsWithSeq] at h
    | cons c cs =>
      simp only [startsWithSeq, Bool.and_eq_true] at h
      simpa only [List.cons_append, startsWithSeq, Bool.and_eq_true]
        using ⟨h.1, ih h.2⟩

theorem startsWithSeq_self (p : List Char) : startsWithSeq p p = true := by
  induction p with
  | nil => rfl
  | cons a ps ih => simp [startsWithSeq, ih]

theorem containsSeq_nil (s : List Char) : containsSeq [] s = true := by
  induction s with
  | nil => rfl
  | cons c cs ih => simp [containsSeq, startsWithSeq]

theorem containsSeq_append_right {p s : List Char} (u : List Char)
    (h : containsSeq p s = true) : containsSeq p (s ++ u) = true := by
  induction s with
  | nil =>
    cases p with
    | nil => simpa using containsSeq_nil u
    | cons a ps => simp [containsSeq, startsWithSeq] at h
  | cons c cs ih =>
    simp only [containsSeq, Bool.or_eq_true] at h
    rcases h with h | h
    · simpa only [List.cons_append, containsSeq, Bool.or_eq_true]
        using Or.inl (startsWithSeq_append u h)
    · simpa only [List.cons_append, containsSeq, Bool.or_eq_true]
        using Or.inr (ih h)

theorem containsSeq_append_left {p u : List Char} (s : List Char)
    (h : containsSeq p u = true) : containsSeq p (s ++ u) = true := by
  induction s with
  | nil => simpa using h
  | cons c cs ih =>
    simpa only [List.cons_append, containsSeq, Bool.or_eq_true] using Or.inr ih

theorem containsSeq_self (p : List Char) : containsSeq p p = true := by
  cases p with
  | nil => rfl
  | cons a ps => simp [containsSeq, startsWithSeq_self]

theorem foldl_add_if {α : Type} (cond : α → Bool) (k : Nat) :
    ∀ (L : List α) (a : Nat),
      L.foldl (fun acc x => if cond x then acc + k else acc) a = a + k * L.countP cond := by
  intro L
  induction L with
  | nil => intro a; simp
  | cons x xs ih =>
    intro a
    by_cases h : cond x = true
    · simp only [List.foldl_cons, List.countP_cons, h, if_true, ih]
      ring
    · simp only [List.foldl_cons, List.countP_cons, h, if_false, ih]
      simp [Bool.not_eq_true] at h
      simp [h]

theorem runsAux_append (p : Char → Bool) {sep : Char} (hsep : p sep = false)
    (u : List Char) :
    ∀ (t cur : List Char),
      runsAux p cur (t ++ sep :: u) = runsAux p cur t ++ runsAux p [] u := by
  intro t
  induction t with
  | nil =>
    intro cur
    by_cases hc : cur.isEmpty
    · simp [runsAux, hsep, hc]
    · simp [runsAux, hsep, hc]
  | cons c t ih =>
    intro cur
    by_cases hpc : p c = true
    · simp only [List.cons_append, runsAux, hpc, if_true]
      exact ih (c :: cur)
    · by_cases hc : cur.isEmpty
      · simp only [List.cons_append, runsAux, hpc, hc]
        simpa using ih []
      · simp only [List.cons_append, runsAux, hpc, hc]
        simpa using ih []

theorem runsBy_append_sep (p : Char → Bool) {sep : Char} (hsep : p sep = false)
    (t u : List Char) : runsBy p (t ++ sep :: u) = runsBy p t ++ runsBy p u :=
  runsAux_append p hsep u t []

theorem wordRuns_append_space (t u : List Char) :
    wordRuns (t ++ ' ' :: u) = wordRuns t ++ wordRuns u :=
  runsBy_append_sep isWordChar (by rfl) t u

theorem complexTermCount_append_space (t u : List Char) :
    complexTermCount (t ++ ' ' :: u) = complexTermCount t + complexTermCount u := by
  unfold complexTermCount
  rw [wordRuns_append_space, List.countP_append]

theorem lowerText_append (t u : List Char) :
    lowerText (t ++ u) = lowerText t ++ lowerText u :=
  List.map_append _ t u

theorem dropWhile_head_false {α : Type} (p : α → Bool) :
    ∀ (l : List α) (c : α), (l.dropWhile p).head? = some c → p c = false := by
  intro l
  induction l with
  | nil => intro c h; simp [List.dropWhile] at h
  | cons a l ih =>
    intro c h
    by_cases hpa : p a = true
    · exact ih c (by simpa [List.dropWhile, hpa] using h)
    · simp only [List.dropWhile, hpa, Bool.false_eq_true, if_false, List.head?_cons,
        Option.some.injEq] at h
      simp [Bool.not_eq_true] at hpa
      rw [← h]; exact hpa

theorem dropWhile_eq_self_of_head {α : Type} (p : α → Bool) (l : List α)
    (h : ∀ c, l.head? = some c → p c = false) : l.dropWhile p = l := by
  cases l with
  | nil => rfl
  | cons a l =>
    have := h a rfl
    simp [List.dropWhile, this]

theorem exists_append_dropWhile {α : Type} (p : α → Bool) (l : List α) :
    ∃ s, l = s ++ l.dropWhile p := by
  induction l with
  | nil => exact ⟨[], rfl⟩
  | cons a l ih =>
    by_cases hpa : p a = true
    · obtain ⟨s, hs⟩ := ih
      exact ⟨a :: s, by simpa [List.dropWhile, hpa] using hs⟩
    · exact ⟨[], by simp [List.dropWhile, hpa]⟩

theorem trimText_getLast_false (l : List Char) {c : Char}
    (h : (trimText l).getLast? = some c) : isSpaceChar c = false := by
  unfold trimText at h
  rw [List.getLast?_reverse] at h
  exact dropWhile_head_false isSpaceChar _ c h

theorem trimText_head_false (l : List Char) {c : Char}
    (h : (trimText l).head? = some c) : isSpaceChar c = false := by
  unfold trimText at h
  rw [List.head?_reverse] at h
  set a := l.dropWhile isSpaceChar with ha
  set b := a.reverse.dropWhile isSpaceChar with hb
  obtain ⟨s, hs⟩ := exists_append_dropWhile isSpaceChar a.reverse
  rw [← hb] at hs
  have : a.reverse.getLast? = some c := by
    rw [hs, List.getLast?_append, h]; rfl
  rw [List.getLast?_reverse] at this
  exact dropWhile_head_false isSpaceChar _ c this

theorem trimText_idem (l : List Char) : trimText (trimText l) = trimText l := by
  conv_lhs => rw [trimText]
  rw [dropWhile_eq_self_of_head isSpaceChar (trimText l)
    (fun c hc => trimText_head_false l hc)]
  rw [dropWhile_eq_self_of_head isSpaceChar (trimText l).reverse
    (fun c hc => trimText_getLast_false l (by rwa [List.head?_reverse] at hc))]
  exact List.reverse_reverse _

theorem argmaxFirst_eq_none {l : List (ClauseType × Nat)} :
    argmaxFirst l = none ↔ l = [] := by
  cases l with
  | nil => simp [argmaxFirst]
  | cons x xs =>
    cases hxs : argmaxFirst xs with
    | none => simp [argmaxFirst, hxs]
    | some y =>
      simp only [argmaxFirst, hxs]
      constructor
      · intro h; split at h <;> simp at h
      · intro h; simp at h

theorem argmaxFirst_spec :
    ∀ {l : List (ClauseType × Nat)} {y : ClauseType × Nat},
      argmaxFirst l = some y →
      (∀ x ∈ l, x.2 ≤ y.2) ∧ ∃ l1 l2, l = l1 ++ y :: l2 ∧ ∀ x ∈ l1, x.2 < y.2 := by
  intro l
  induction l with
  | nil => intro y h; simp [argmaxFirst] at h
  | cons x xs ih =>
    intro y h
    simp only [argmaxFirst] at h
    cases hxs : argmaxFirst xs with
    | none =>
      simp only [hxs] at h
      cases h
      have hnil : xs = [] := argmaxFirst_eq_none.mp hxs
      subst hnil
      exact ⟨by simp, [], [], rfl, by simp⟩
    | some z =>
      simp only [hxs] at h
      obtain ⟨hmax, l1, l2, hdec, hlt⟩ := ih hxs
      by_cases hx : x.2 < z.2
      · rw [if_pos hx] at h
        cases h
        refine ⟨?_, x :: l1, l2, by rw [hdec, List.cons_append], ?_⟩
        · intro w hw
          rcases List.mem_cons.mp hw with hw | hw
          · exact hw ▸ Nat.le_of_lt hx
          · exact hmax w hw
        · intro w hw
          rcases List.mem_cons.mp hw with hw | hw
          · exact hw ▸ hx
          · exact hlt w hw
      · rw [if_neg hx] at h
        cases h
        refine ⟨?_, [], xs, rfl, by simp⟩
        intro w hw
        rcases List.mem_cons.mp hw with hw | hw
        · exact hw ▸ Nat.le_refl _
        · exact Nat.le_trans (hmax w hw) (Nat.le_of_not_lt hx)

theorem filter_key_orderedInsert {α : Type} (key : α → Nat) (s : Nat) (a : α)
    (l : List α) :
    (List.orderedInsert (fun x y => key y ≤ key x) a l).filter (fun x => key x == s)
      = if key a == s then a :: l.filter (fun x => key x == s)
        else l.filter (fun x => key x == s) := by
  induction l with
  | nil =>
    simp only [List.orderedInsert]
    by_cases hqa : (key a == s) = true
    · rw [if_pos hqa]; simp [List.filter, hqa]
    · rw [if_neg hqa]; simp [List.filter, hqa]
  | cons b l ih =>
    simp only [List.orderedInsert]
    by_cases hr : key b ≤ key a
    · rw [if_pos hr]
      by_cases hqa : (key a == s) = true
      · rw [List.filter_cons, if_pos hqa]
      · rw [List.filter_cons, if_neg hqa]
    · rw [if_neg hr, List.filter_cons, ih]
      by_cases hqa : (key a == s) = true
      · have hb : ¬ ((key b == s) = true) := by
          have h1 : key a = s := by simpa using hqa
          have h2 : key a < key b := Nat.lt_of_not_le hr
          simp only [beq_iff_eq]
          omega
        rw [if_neg hb, if_pos hqa, if_pos hqa, List.filter_cons, if_neg hb]
      · rw [if_neg hqa, if_neg hqa, List.filter_cons]

theorem filter_key_insertionSort {α : Type} (key : α → Nat) (s : Nat)
    (l : List α) :
    (List.insertionSort (fun x y => key y ≤ key x) l).filter (fun x => key x == s)
      = l.filter (fun x => key x == s) := by
  induction l with
  | nil => rfl
  | cons a l ih =>
    rw [List.insertionSort, filter_key_orderedInsert, ih, List.filter_cons]

theorem risk_score_eq (t : List Char) (ty : ClauseType) :
    (calculate_risk_level t ty).2 = specRiskScore t ty := by
  simp only [calculate_risk_level, specRiskScore, specRawScore, specHighCount,
    specMedCount, lenBonus, jargonBonus, riskyType, foldl_add_if, Nat.zero_add,
    Bool.and_eq_true, decide_eq_true_eq]
  cases hty : (ty == ClauseType.TERMINATION || ty == ClauseType.LIABILITY) <;>
    simp only [hty, Bool.false_eq_true, and_false, and_true] <;>
    split_ifs <;> omega

theorem calculate_risk_level_eq (t : List Char) (ty : ClauseType) :
    calculate_risk_level t ty = (specRiskLevel t ty, specRiskScore t ty) := by
  have hs := risk_score_eq t ty
  have hl : (calculate_risk_level t ty).1 =
      (if 50 ≤ (calculate_risk_level t ty).2 then RiskLevel.HIGH
       else if 25 ≤ (calculate_risk_level t ty).2 then RiskLevel.MEDIUM
       else RiskLevel.LOW) := rfl
  rw [hs] at hl
  exact Prod.ext hl hs

theorem lower_high_terms : ∀ p ∈ high_risk_terms, lowerText p = p := by decide

theorem lowerText_append_space (t p : List Char) :
    lowerText (t ++ ' ' :: p) = lowerText t ++ ' ' :: lowerText p := by
  rw [lowerText_append]
  rfl

theorem specRawScore_append_space_mono (t p : List Char) :
    specRawScore t ≤ specRawScore (t ++ ' ' :: p) := by
  have hlow := lowerText_append_space t p
  have h1 : specHighCount (lowerText t) ≤ specHighCount (lowerText (t ++ ' ' :: p)) := by
    rw [hlow]
    exact List.countP_mono_left fun x _ h =>
      containsSeq_append_right (' ' :: lowerText p) h
  have h2 : specMedCount (lowerText t) ≤ specMedCount (lowerText (t ++ ' ' :: p)) := by
    rw [hlow]
    exact List.countP_mono_left fun x _ h =>
      containsSeq_append_right (' ' :: lowerText p) h
  have h3 : lenBonus t ≤ lenBonus (t ++ ' ' :: p) := by
    unfold lenBonus
    have : t.length ≤ (t ++ ' ' :: p).length := by simp
    split_ifs <;> omega
  have h4 : jargonBonus (lowerText t) ≤ jargonBonus (lowerText (t ++ ' ' :: p)) := by
    unfold jargonBonus
    rw [hlow, complexTermCount_append_space]
    have : complexTermCount (lowerText t) * 3
        ≤ (complexTermCount (lowerText t) + complexTermCount (' ' :: lowerText p)) * 3 := by
      have hc : complexTermCount (' ' :: lowerText p) = complexTermCount ([] ++ ' ' :: lowerText p) := rfl
      omega
    omega
  unfold specRawScore
  omega

theorem specHighCount_append_pos {p : List Char} (t : List Char)
    (hp : p ∈ high_risk_terms) :
    1 ≤ specHighCount (lowerText (t ++ ' ' :: p)) := by
  rw [lowerText_append_space, lower_high_terms p hp]
  refine List.countP_pos_iff.mpr ⟨p, hp, ?_⟩
  rw [List.append_cons]
  exact containsSeq_append_left _ (containsSeq_self p)

theorem specRiskScore_append_space_mono {p : List Char} (t : List Char)
    (hp : p ∈ high_risk_terms) (ty ty' : ClauseType) :
    specRiskScore t ty ≤ specRiskScore (t ++ ' ' :: p) ty' := by
  have hraw := specRawScore_append_space_mono t p
  have h30 : 30 ≤ specRawScore (t ++ ' ' :: p) := by
    have h1 := specHighCount_append_pos t hp
    unfold specRawScore
    omega
  unfold specRiskScore
  have hcond : (specRawScore (t ++ ' ' :: p) < 10 && riskyType ty') ≠ true := by
    intro h
    rw [Bool.and_eq_true, decide_eq_true_eq] at h
    obtain ⟨h1, -⟩ := h
    omega
  rw [if_neg hcond]
  by_cases hfl : (specRawScore t < 10 && riskyType ty) = true
  · rw [if_pos hfl]
    omega
  · rw [if_neg hfl]
    omega

theorem classify_risk_score_eq (t cid : List Char) (order : List (List Char)) :
    (classify_clause t cid order).risk_score
      = specRiskScore t (detect_clause_type t).1 := by
  have : (classify_clause t cid order).risk_score
      = (calculate_risk_level t (detect_clause_type t).1).2 := rfl
  rw [this, risk_score_eq]

/-- C2: corrected.  The source's risk score adds 30 once for each
high-risk phrase contained in the clause (not once per occurrence), 15
once for each medium-risk phrase contained, the length and capped jargon
bonuses, the floor of 20 for Termination and Liability clauses below 10,
and the clamp at 100, and maps the result through the fixed thresholds. -/
theorem C2_risk_formula (t : List Char) (ty : ClauseType) :
    calculate_risk_level t ty = (specRiskLevel t ty, specRiskScore t ty) :=
  calculate_risk_level_eq t ty

/-- C2 counterexample: on a clause containing the same high-risk phrase
twice, the per-occurrence reading of the claim gives 60 while the source
computes 30, so the claimed formula disagrees with the code. -/
theorem C2_risk_formula_counterexample :
    claimOccRiskScore riskCexText .TERMINATION = 60 ∧
    (calculate_risk_level riskCexText .TERMINATION).2 = 30 ∧
    claimOccRiskScore riskCexText .TERMINATION
      ≠ (calculate_risk_level riskCexText .TERMINATION).2 := by
  refine ⟨by decide, by decide, by decide⟩

/-- C8: corrected.  Every risk score lies in [0, 100] (scores are natural
numbers, so the lower bound is inherent), and appending one more
high-risk phrase separated by a space never decreases the risk score of
the classified clause; appending it without a separator can decrease the
score (see the counterexample), because the juxtaposition can destroy a
nominalization-word match. -/
theorem C8_risk_bounds_mono :
    (∀ (t : List Char) (ty : ClauseType), (calculate_risk_level t ty).2 ≤ 100) ∧
    (∀ (t p : List Char), p ∈ high_risk_terms →
      ∀ (cid cid' : List Char) (order order' : List (List Char)),
        (classify_clause t cid order).risk_score
          ≤ (classify_clause (t ++ ' ' :: p) cid' order').risk_score) := by
  constructor
  · intro t ty
    rw [risk_score_eq]
    exact Nat.min_le_right _ _
  · intro t p hp cid cid' order order'
    rw [classify_risk_score_eq, classify_risk_score_eq]
    exact specRiskScore_append_space_mono t hp _ _

/-- C8 witness: the space-separated monotonicity applied to the concrete
base clause and phrase of the counterexample. -/
theorem C8_risk_bounds_mono_witness :
    monoPhrase ∈ high_risk_terms ∧
    (classify_clause monoBaseText "c1".toList []).risk_score
      ≤ (classify_clause (monoBaseText ++ ' ' :: monoPhrase) "c1".toList []).risk_score :=
  ⟨by decide,
    C8_risk_bounds_mono.2 monoBaseText monoPhrase (by decide)
      "c1".toList "c1".toList [] []⟩

/-- C8 counterexample: appending one more occurrence of the high-risk
phrase directly to the clause strictly decreases the risk score of the
classified clause (33 drops to 30), refuting the claimed monotonicity. -/
theorem C8_risk_mono_counterexample :
    monoPhrase ∈ high_risk_terms ∧
    countOcc monoPhrase (monoBaseText ++ monoPhrase)
      = countOcc monoPhrase monoBaseText + 1 ∧
    (classify_clause (monoBaseText ++ monoPhrase) "c2".toList []).risk_score
      < (classify_clause monoBaseText "c2".toList []).risk_score := by
  refine ⟨by decide, by decide, by decide⟩

/-- C10: confirmed.  The stored clause text of a classified clause is the
first 200 characters of the input, while the type, the risk score and the
key terms are computed from the full text; for clauses longer than 200
characters the stored text therefore differs from the clause. -/
theorem C10_clause_truncation (t cid : List Char) (order : List (List Char)) :
    (classify_clause t cid order).clause_text = t.take 200 ∧
    (classify_clause t cid order).clause_type = (detect_clause_type t).1 ∧
    (classify_clause t cid order).risk_score
      = (calculate_risk_level t (detect_clause_type t).1).2 ∧
    (classify_clause t cid order).key_terms = extract_key_terms t order ∧
    (200 < t.length → (classify_clause t cid order).clause_text ≠ t) := by
  refine ⟨rfl, rfl, rfl, rfl, ?_⟩
  intro h hEq
  have h2 : t.take 200 = t := hEq
  have h3 := congrArg List.length h2
  simp [List.length_take] at h3
  omega

/-- C10 witness: a 201-character clause is stored truncated. -/
theorem C10_clause_truncation_witness :
    (classify_clause longClause "c3".toList []).clause_text ≠ longClause :=
  (C10_clause_truncation longClause "c3".toList []).2.2.2.2
    (by simp only [longClause, List.length_replicate]; omega)

/-- C9: corrected.  For every enumeration of the deduplicating set, the
extracted key terms are at most five distinct eligible words (lower-cased
letter runs of length at least four that are not stop words), sorted
lexicographically; but which five survive depends on the unspecified set
iteration order, so for texts with more than five eligible words the
result is neither the alphabetically first five nor stable across runs. -/
theorem C9_key_terms (t : List Char) (order : List (List Char))
    (h : validSetOrder t order) :
    (extract_key_terms t order).Sorted (· ≤ ·) ∧
    (extract_key_terms t order).length ≤ 5 ∧
    (extract_key_terms t order).Nodup ∧
    ∀ w ∈ extract_key_terms t order,
      w ∈ qualifyingTerms t ∧ w.all isSpanishLower = true ∧ 4 ≤ w.length ∧
        stop_words.contains w = false := by
  unfold extract_key_terms
  have hperm := List.perm_insertionSort (fun a b : List Char => a ≤ b) (order.take 5)
  refine ⟨List.sorted_insertionSort _ _, ?_, ?_, ?_⟩
  · rw [hperm.length_eq]
    exact le_trans (List.length_take_le 5 order) (le_refl 5)
  · have hnodup : order.Nodup := (List.Perm.nodup_iff h).mpr (List.nodup_dedup _)
    exact (List.Perm.nodup_iff hperm).mpr
      ((List.take_sublist 5 order).nodup hnodup)
  · intro w hw
    have hw1 : w ∈ order.take 5 := hperm.mem_iff.mp hw
    have hw2 : w ∈ order := List.mem_of_mem_take hw1
    have hw3 : w ∈ (qualifyingTerms t).dedup := h.mem_iff.mp hw2
    have hw4 : w ∈ qualifyingTerms t := List.mem_dedup.mp hw3
    refine ⟨hw4, ?_⟩
    unfold qualifyingTerms at hw4
    rw [List.mem_filter] at hw4
    obtain ⟨hw5, hstop⟩ := hw4
    rw [List.mem_filter] at hw5
    obtain ⟨-, hcls⟩ := hw5
    rw [Bool.and_eq_true] at hcls
    refine ⟨hcls.1, ?_, ?_⟩
    · exact of_decide_eq_true hcls.2
    · simpa using hstop

/-- C9 witness: the characterization applied to a clause with six
eligible words and the reverse-alphabetical enumeration. -/
theorem C9_key_terms_witness :
    (extract_key_terms keyTermsText keyTermsOrder).Sorted (· ≤ ·) ∧
    (extract_key_terms keyTermsText keyTermsOrder).length ≤ 5 ∧
    (extract_key_terms keyTermsText keyTermsOrder).Nodup ∧
    ∀ w ∈ extract_key_terms keyTermsText keyTermsOrder,
      w ∈ qualifyingTerms keyTermsText ∧ w.all isSpanishLower = true ∧
        4 ≤ w.length ∧ stop_words.contains w = false :=
  C9_key_terms keyTermsText keyTermsOrder (by decide)

/-- C9 counterexample: on a clause with six eligible words there is a
valid set enumeration whose result is not the alphabetically first five
distinct terms, refuting the claim as stated for every run. -/
theorem C9_key_terms_counterexample :
    validSetOrder keyTermsText keyTermsOrder ∧
    extract_key_terms keyTermsText keyTermsOrder ≠ sortedKeyTerms keyTermsText ∧
    ¬ keyTermsClaim := by
  refine ⟨by decide, by decide, ?_⟩
  intro hclaim
  exact absurd (hclaim keyTermsText keyTermsOrder (by decide)) (by decide)

theorem filterMap_trim15 (L : List (List Char)) :
    (L.filterMap fun c =>
        let c' := trimText c
        if !c'.isEmpty && 15 < c'.length then some c' else none)
      = ((L.map trimText).filter fun c => 15 < c.length) := by
  induction L with
  | nil => rfl
  | cons c L ih =>
    cases hcond : (!(trimText c).isEmpty && decide (15 < (trimText c).length)) with
    | true =>
      rw [Bool.and_eq_true] at hcond
      have h15 : 15 < (trimText c).length := of_decide_eq_true hcond.2
      have hne : (trimText c).isEmpty = false := by
        have hx := hcond.1
        cases hie : (trimText c).isEmpty
        · rfl
        · rw [hie] at hx; simp at hx
      simp only [List.filterMap_cons, List.map_cons, List.filter_cons, hne,
        decide_eq_true h15, Bool.not_false, Bool.true_and, Bool.and_true,
        if_true, ih]
    | false =>
      have h15 : ¬ 15 < (trimText c).length := by
        rcases Bool.and_eq_false_iff.mp hcond with hc | hc
        · have : (trimText c).isEmpty = true := by
            cases hie : (trimText c).isEmpty
            · rw [hie] at hc; simp at hc
            · rfl
          have : trimText c = [] := by
            cases htc : trimText c
            · rfl
            · rw [htc] at this; simp at this
          rw [this]
          simp
        · exact decide_eq_false_iff_not.mp hc
      simp only [List.filterMap_cons, List.map_cons, List.filter_cons, hcond,
        decide_eq_false h15, ih]
      simp

theorem trim15_after_trim10 :
    (fun c : List Char =>
        ((fun c : List Char =>
            let c' := trimText c
            if !c'.isEmpty && 10 < c'.length then some c' else none) c).bind
          fun c : List Char =>
            let c' := trimText c
            if !c'.isEmpty && 15 < c'.length then some c' else none)
      = (fun c : List Char =>
          let c' := trimText c
          if !c'.isEmpty && 15 < c'.length then some c' else none) := by
  funext c
  by_cases h10 : 10 < (trimText c).length
  · have hne : (trimText c).isEmpty = false := by
      cases htc : trimText c with
      | nil => rw [htc] at h10; simp at h10
      | cons a l => rfl
    simp only [hne, decide_eq_true h10, Bool.not_false, Bool.true_and, if_true]
    simp only [Option.some_bind]
    simp only [trimText_idem, hne, Bool.not_false, Bool.true_and]
  · have h15 : ¬ 15 < (trimText c).length := by omega
    cases hcond : (!(trimText c).isEmpty && decide (10 < (trimText c).length)) with
    | true =>
      rw [Bool.and_eq_true] at hcond
      exact absurd (of_decide_eq_true hcond.2) h10
    | false =>
      simp only [hcond, Bool.false_eq_true, if_false, Option.none_bind]
      cases hcond2 : (!(trimText c).isEmpty && decide (15 < (trimText c).length)) with
      | true =>
        rw [Bool.and_eq_true] at hcond2
        exact absurd (of_decide_eq_true hcond2.2) h15
      | false => simp [hcond2]

theorem map_trim_idem (L : List (List Char)) :
    (L.map trimText).map trimText = L.map trimText := by
  rw [List.map_map]
  have : trimText ∘ trimText = trimText := funext trimText_idem
  rw [this]

/-- C6: corrected.  The four fallback strategies are applied in order and
the first that fires produces the candidate clauses; each candidate is
trimmed, and a trimmed candidate is kept only when strictly longer than
15 characters — a candidate of exactly 15 characters is discarded, not
kept.  The result is a pure function of the input text. -/
theorem C6_segmentation (t0 : List Char) :
    split_clauses t0
      = (((strategyCandidates (trimText t0)).map trimText).filter
          fun c => 15 < c.length) ∧
    ∀ c ∈ split_clauses t0, trimText c = c ∧ 15 < c.length := by
  have hmain : split_clauses t0
      = (((strategyCandidates (trimText t0)).map trimText).filter
          fun c => 15 < c.length) := by
    unfold split_clauses strategyCandidates numberedClauses
    by_cases h1 : hasNumberedMatch (trimText t0) = true
    · simp only [h1, if_true]
      rw [List.filterMap_filterMap, trim15_after_trim10]
      exact filterMap_trim15 _
    · simp only [h1, Bool.false_eq_true, if_false]
      by_cases h2 : hasNN (trimText t0) = true
      · simp only [h2, if_true]
        rw [filterMap_trim15, map_trim_idem]
      · simp only [h2, Bool.false_eq_true, if_false]
        by_cases h3 : hasSentBoundary (trimText t0) = true
        · simp only [h3, if_true]
          exact filterMap_trim15 _
        · simp only [h3, Bool.false_eq_true, if_false]
          exact filterMap_trim15 _
  refine ⟨hmain, ?_⟩
  intro c hc
  rw [hmain] at hc
  rw [List.mem_filter] at hc
  obtain ⟨hc1, hc2⟩ := hc
  obtain ⟨x, -, hx⟩ := List.mem_map.mp hc1
  constructor
  · rw [← hx]
    exact trimText_idem x
  · exact of_decide_eq_true hc2

/-- C6 witness: the kept 16-character clause of the two-line input is
trimmed and longer than 15 characters. -/
theorem C6_segmentation_witness :
    trimText "abcdefghijklmnop".toList = "abcdefghijklmnop".toList ∧
    15 < ("abcdefghijklmnop".toList).length :=
  (C6_segmentation splitCexText).2 "abcdefghijklmnop".toList (by decide)

/-- C6 counterexample: a trimmed candidate of exactly 15 characters is
discarded by the segmentation, refuting the parenthetical of the claim. -/
theorem C6_segmentation_counterexample :
    "abcdefghijklmno".toList ∈ (strategyCandidates (trimText splitCexText)).map trimText ∧
    ("abcdefghijklmno".toList).length = 15 ∧
    "abcdefghijklmno".toList ∉ split_clauses splitCexText ∧
    split_clauses splitCexText = ["abcdefghijklmnop".toList] := by
  refine ⟨by decide, by decide, by decide, by decide⟩

/-- C7: confirmed.  Categories are scored one point per contained keyword
and two per contained red-flag phrase (the entries of `scoreList`, in the
fixed pattern order); when no category scores, the clause is typed Other
with confidence 0; otherwise the detected category is the earliest entry
attaining the maximal score (every earlier entry scores strictly less and
no entry scores more) and the confidence is `min(score / 5, 1)`.
Detection is a pure function of the clause text, hence deterministic. -/
theorem C7_type_detection (t : List Char) :
    (scoreList (lowerText t) = [] → detect_clause_type t = (.OTHER, 0)) ∧
    (scoreList (lowerText t) ≠ [] →
      ∃ (ty : ClauseType) (s : Nat) (l1 l2 : List (ClauseType × Nat)),
        detect_clause_type t = (ty, min ((s : ℚ) / 5) 1) ∧
        scoreList (lowerText t) = l1 ++ (ty, s) :: l2 ∧
        (∀ x ∈ l1, x.2 < s) ∧
        (∀ x ∈ scoreList (lowerText t), x.2 ≤ s)) := by
  constructor
  · intro h
    have hn : argmaxFirst (scoreList (lowerText t)) = none := argmaxFirst_eq_none.mpr h
    simp only [detect_clause_type, hn]
  · intro h
    cases hy : argmaxFirst (scoreList (lowerText t)) with
    | none => exact absurd (argmaxFirst_eq_none.mp hy) h
    | some y =>
      obtain ⟨ty, s⟩ := y
      obtain ⟨hmax, l1, l2, hdec, hlt⟩ := argmaxFirst_spec hy
      refine ⟨ty, s, l1, l2, ?_, hdec, hlt, hmax⟩
      simp only [detect_clause_type, hy]

/-- C7 witness: detection applied to a clause naming one termination
keyword. -/
theorem C7_type_detection_witness :
    ∃ (ty : ClauseType) (s : Nat) (l1 l2 : List (ClauseType × Nat)),
      detect_clause_type terminationClause = (ty, min ((s : ℚ) / 5) 1) ∧
      scoreList (lowerText terminationClause) = l1 ++ (ty, s) :: l2 ∧
      (∀ x ∈ l1, x.2 < s) ∧
      (∀ x ∈ scoreList (lowerText terminationClause), x.2 ≤ s) :=
  (C7_type_detection terminationClause).2 (by decide)

theorem title_contains_full {tok : List Char} {a : LawArticle}
    (h : containsSeq tok (lowerText a.title) = true) :
    containsSeq tok (fullContent a) = true := by
  unfold fullContent
  exact containsSeq_append_right _ (containsSeq_append_right _
    (containsSeq_append_right _ (containsSeq_append_right _
      (containsSeq_append_right _ (containsSeq_append_right _ h)))))

theorem baseScore_pos_iff (toks : List (List Char)) (a : LawArticle) :
    0 < baseScore toks a ↔ 0 < lawScore toks a := by
  constructor
  · intro h
    unfold lawScore
    omega
  · intro h
    by_contra hb
    have hb0 : baseScore toks a = 0 := by omega
    have hany : (toks.any fun tok => containsSeq tok (lowerText a.title)) = false := by
      cases hA : (toks.any fun tok => containsSeq tok (lowerText a.title)) with
      | false => rfl
      | true =>
        obtain ⟨tok, htok, hc⟩ := List.any_eq_true.mp hA
        have hfull := title_contains_full hc
        have : 0 < baseScore toks a :=
          List.countP_pos_iff.mpr ⟨tok, htok, hfull⟩
        omega
    unfold lawScore at h
    rw [hb0, hany] at h
    simp at h

/-- C3: confirmed.  For every non-empty topic, the lookup returns the
first five of a list that is a permutation of the positively scoring
records, ordered by score descending and stable (records with any given
score keep their original relative order); each ranked record carries the
claimed score (token count over the concatenated searchable text plus 2
when any token occurs in the title), records scoring zero are exactly
those discarded, and at most five records are returned. -/
theorem C3_search_ranking (topic : List Char) (laws : List LawArticle)
    (h : lowerText (trimText topic) ≠ []) :
    ∃ (toks : List (List Char)) (sorted : List (LawArticle × Nat)),
      law_lookup topic laws = .ok toks ((sorted.map Prod.fst).take 5) ∧
      toks = queryTokens (lowerText (trimText topic)) ∧
      sorted.Perm (laws.filterMap (scoredEntry toks)) ∧
      sorted.Pairwise (fun x y => y.2 ≤ x.2) ∧
      (∀ s : Nat, sorted.filter (fun x => x.2 == s)
          = (laws.filterMap (scoredEntry toks)).filter (fun x => x.2 == s)) ∧
      (∀ x ∈ sorted, x.1 ∈ laws ∧ x.2 = lawScore toks x.1 ∧ 0 < baseScore toks x.1) ∧
      (∀ a ∈ laws, (0 < baseScore toks a ↔ 0 < lawScore toks a)) ∧
      ((sorted.map Prod.fst).take 5).length ≤ 5 := by
  have hne : (lowerText (trimText topic)).isEmpty = false := by
    cases hx : lowerText (trimText topic) with
    | nil => exact absurd hx h
    | cons a l => rfl
  refine ⟨queryTokens (lowerText (trimText topic)),
    List.insertionSort (fun x y : LawArticle × Nat => y.2 ≤ x.2)
      (laws.filterMap (scoredEntry (queryTokens (lowerText (trimText topic))))),
    ?_, rfl, List.perm_insertionSort _ _, ?_, ?_, ?_, ?_, ?_⟩
  · simp only [law_lookup, hne, Bool.false_eq_true, if_false]
  · haveI : IsTotal (LawArticle × Nat) (fun x y => y.2 ≤ x.2) :=
      ⟨fun a b => Nat.le_total b.2 a.2⟩
    haveI : IsTrans (LawArticle × Nat) (fun x y => y.2 ≤ x.2) :=
      ⟨fun _ _ _ h1 h2 => Nat.le_trans h2 h1⟩
    exact List.sorted_insertionSort _ _
  · intro s
    exact filter_key_insertionSort (fun x : LawArticle × Nat => x.2) s _
  · intro x hx
    have hx2 : x ∈ laws.filterMap
        (scoredEntry (queryTokens (lowerText (trimText topic)))) :=
      (List.perm_insertionSort _ _).mem_iff.mp hx
    obtain ⟨a, ha, hsome⟩ := List.mem_filterMap.mp hx2
    simp only [scoredEntry] at hsome
    by_cases hb : 0 < baseScore (queryTokens (lowerText (trimText topic))) a
    · rw [if_pos hb] at hsome
      cases Option.some.inj hsome
      exact ⟨ha, rfl, hb⟩
    · rw [if_neg hb] at hsome
      exact absurd hsome (by simp)
  · intro a _
    exact baseScore_pos_iff _ a
  · exact List.length_take_le 5 _

/-- C3 witness: the ranking applied to the two-record collection, where
the record with a title match outranks the body-only match. -/
theorem C3_search_ranking_witness :
    ∃ (toks : List (List Char)) (sorted : List (LawArticle × Nat)),
      law_lookup topicFianza [lawFianza, lawAlquiler]
          = .ok toks ((sorted.map Prod.fst).take 5) ∧
      toks = queryTokens (lowerText (trimText topicFianza)) ∧
      sorted.Perm ([lawFianza, lawAlquiler].filterMap (scoredEntry toks)) ∧
      sorted.Pairwise (fun x y => y.2 ≤ x.2) ∧
      (∀ s : Nat, sorted.filter (fun x => x.2 == s)
          = ([lawFianza, lawAlquiler].filterMap (scoredEntry toks)).filter
              (fun x => x.2 == s)) ∧
      (∀ x ∈ sorted, x.1 ∈ [lawFianza, lawAlquiler] ∧ x.2 = lawScore toks x.1 ∧
        0 < baseScore toks x.1) ∧
      (∀ a ∈ [lawFianza, lawAlquiler],
        (0 < baseScore toks a ↔ 0 < lawScore toks a)) ∧
      ((sorted.map Prod.fst).take 5).length ≤ 5 :=
  C3_search_ranking topicFianza [lawFianza, lawAlquiler] (by decide)

theorem agentLoopGo_outcome_tool {r : Nat → TurnResult} (fuel : Nat) {turn : Nat}
    {t : List Char} (hr : r turn = .ok t) (ht : toolRequested t = true) :
    (agentLoopGo r (fuel + 1) turn).2 = (agentLoopGo r fuel (turn + 1)).2 := by
  simp [agentLoopGo, hr, ht]

theorem agentLoopGo_outcome_done {r : Nat → TurnResult} (fuel : Nat) {turn : Nat}
    {t : List Char} (hr : r turn = .ok t) (ht : toolRequested t = false) :
    (agentLoopGo r (fuel + 1) turn).2 = .completed t turn := by
  simp [agentLoopGo, hr, ht]

/-- C1: corrected.  The loop performs no terminal-marker check: the
session runs all three turns without entering Complete exactly when every
turn's response is treated as a tool call, and the first response that is
not treated as a tool call immediately completes the session with that
response, marker or no marker. -/
theorem C1_loop (rs : Nat → List Char) :
    ((agentLoop fun n => .ok (rs n)).2 = .maxTurnsExhausted ↔
      ∀ n, n < 3 → toolRequested (rs n) = true) ∧
    (∀ n, n < 3 → (∀ m, m < n → toolRequested (rs m) = true) →
      toolRequested (rs n) = false →
      (agentLoop fun k => .ok (rs k)).2 = .completed (rs n) n) := by
  cases h0 : toolRequested (rs 0) with
  | false =>
    have hout : (agentLoop fun n => .ok (rs n)).2 = .completed (rs 0) 0 :=
      agentLoopGo_outcome_done 2 rfl h0
    constructor
    · rw [hout]
      constructor
      · intro habs; exact absurd habs (by simp)
      · intro hall; exact absurd (hall 0 (by omega)) (by simp [h0])
    · intro n hn hprev hfalse
      have hn0 : n = 0 := by
        by_contra hne
        have hx := hprev 0 (by omega)
        rw [h0] at hx
        exact absurd hx (by simp)
      subst hn0
      exact hout
  | true =>
    have e0 : (agentLoop fun n => .ok (rs n)).2
        = (agentLoopGo (fun n => .ok (rs n)) 2 1).2 :=
      agentLoopGo_outcome_tool 2 rfl h0
    cases h1 : toolRequested (rs 1) with
    | false =>
      have hout : (agentLoop fun n => .ok (rs n)).2 = .completed (rs 1) 1 := by
        rw [e0]; exact agentLoopGo_outcome_done 1 rfl h1
      constructor
      · rw [hout]
        constructor
        · intro habs; exact absurd habs (by simp)
        · intro hall; exact absurd (hall 1 (by omega)) (by simp [h1])
      · intro n hn hprev hfalse
        have hn1 : n = 1 := by
          rcases n with - | n
          · rw [h0] at hfalse; exact absurd hfalse (by simp)
          · rcases n with - | n
            · rfl
            · have hx := hprev 1 (by omega)
              rw [h1] at hx
              exact absurd hx (by simp)
        subst hn1
        exact hout
    | true =>
      have e1 : (agentLoop fun n => .ok (rs n)).2
          = (agentLoopGo (fun n => .ok (rs n)) 1 2).2 := by
        rw [e0]; exact agentLoopGo_outcome_tool 1 rfl h1
      cases h2 : toolRequested (rs 2) with
      | false =>
        have hout : (agentLoop fun n => .ok (rs n)).2 = .completed (rs 2) 2 := by
          rw [e1]; exact agentLoopGo_outcome_done 0 rfl h2
        constructor
        · rw [hout]
          constructor
          · intro habs; exact absurd habs (by simp)
          · intro hall; exact absurd (hall 2 (by omega)) (by simp [h2])
        · intro n hn hprev hfalse
          have hn2 : n = 2 := by
            rcases n with - | n
            · rw [h0] at hfalse; exact absurd hfalse (by simp)
            · rcases n with - | n
              · rw [h1] at hfalse; exact absurd hfalse (by simp)
              · rcases n with - | n
                · rfl
                · omega
          subst hn2
          exact hout
      | true =>
        have hout : (agentLoop fun n => .ok (rs n)).2 = .maxTurnsExhausted := by
          rw [e1]
          exact agentLoopGo_outcome_tool 0 rfl h2
        constructor
        · rw [hout]
          constructor
          · intro _ n hn
            rcases n with - | n
            · exact h0
            · rcases n with - | n
              · exact h1
              · rcases n with - | n
                · exact h2
                · omega
          · intro _; rfl
        · intro n hn hprev hfalse
          rcases n with - | n
          · rw [h0] at hfalse; exact absurd hfalse (by simp)
          · rcases n with - | n
            · rw [h1] at hfalse; exact absurd hfalse (by simp)
            · rcases n with - | n
              · rw [h2] at hfalse; exact absurd hfalse (by simp)
              · omega

/-- C1 witness: a stream of pure tool calls exhausts the three turns; a
stream opening with plain text completes at turn 0. -/
theorem C1_loop_witness :
    (agentLoop fun _ => .ok noToolFieldResponse).2 = .maxTurnsExhausted ∧
    (agentLoop fun _ => .ok plainResponse).2 = .completed plainResponse 0 :=
  ⟨(C1_loop fun _ => noToolFieldResponse).1.mpr (fun n _ => by decide),
    (C1_loop fun _ => plainResponse).2 0 (by omega)
      (fun m hm => absurd hm (by omega)) (by decide)⟩

/-- C1 counterexample: a response stream with no terminal marker and no
tool call does not stop at the turn ceiling — it completes on the very
first turn, refuting the claimed loop behaviour. -/
theorem C1_loop_counterexample : ¬ loopMarkerClaim := by
  intro h
  exact absurd
    (h (fun _ => plainResponse)
      (fun _ => ⟨(by decide : containsMarker plainResponse = false),
        (by decide : toolRequested plainResponse = false)⟩))
    (by decide)

theorem skipWs_brace (rest : List Char) : skipWs ('{' :: rest) = '{' :: rest := by
  unfold skipWs
  rw [List.dropWhile_cons, show isSpaceChar '{' = false from rfl]
  simp

theorem parseVal_brace_obj (fuel : Nat) (rest : List Char) (v : JsonVal)
    (rem : List Char) (h : parseVal fuel ('{' :: rest) = some (v, rem)) :
    ∃ fields, v = .obj fields := by
  cases fuel with
  | zero => exact absurd h (by simp [parseVal])
  | succ k =>
    simp only [parseVal, skipWs_brace,
      show (('{' : Char) == '"') = false from rfl,
      show (('{' : Char) == '{') = true from rfl,
      Bool.false_eq_true, if_false, if_true] at h
    split at h
    · simp only [Option.some.injEq, Prod.mk.injEq] at h
      exact ⟨[], h.1.symm⟩
    · split at h
      · simp only [Option.some.injEq, Prod.mk.injEq] at h
        obtain ⟨h1, -⟩ := h
        exact ⟨_, h1.symm⟩
      · exact absurd h (by simp)

theorem dropWhile_ne_brace (l : List Char) :
    l.dropWhile (· != '{') = [] ∨ ∃ rest, l.dropWhile (· != '{') = '{' :: rest := by
  cases hd : l.dropWhile (· != '{') with
  | nil => exact Or.inl rfl
  | cons c rest =>
    right
    have hc : (c != '{') = false :=
      dropWhile_head_false _ l c (by rw [hd]; rfl)
    have : c = '{' := by
      simpa using hc
    exact ⟨rest, by rw [this]⟩

theorem parse_tool_call_obj (t : List Char) (v : JsonVal)
    (h : parse_tool_call t = some v) : ∃ fields, v = .obj fields := by
  unfold parse_tool_call at h
  by_cases hany : t.any (· == '{') = true
  · rw [if_pos hany] at h
    rcases dropWhile_ne_brace ((t.reverse.dropWhile (· != '}')).reverse) with hd | ⟨rest, hd⟩
    · rw [hd] at h
      exact absurd h (by simp [jsonLoads, parseVal, skipWs, List.dropWhile])
    · rw [hd] at h
      unfold jsonLoads at h
      cases hp : parseVal (('{' :: rest).length + 1) ('{' :: rest) with
      | none => rw [hp] at h; exact absurd h (by simp)
      | some pr =>
        obtain ⟨w, rem⟩ := pr
        simp only [hp] at h
        by_cases he : (skipWs rem).isEmpty = true
        · rw [if_pos he] at h
          cases Option.some.inj h
          exact parseVal_brace_obj _ rest v rem hp
        · rw [if_neg he] at h
          exact absurd h (by simp)
  · rw [if_neg hany] at h
    exact absurd h (by simp)

/-- C4: corrected.  Both example strings behave as the specification
states, decoding never raises (a failed decode is simply no tool call,
and any successfully decoded payload is an object because the slice
starts at a brace); but a response is treated as a tool request whenever
the payload decodes to a truthy value, whether or not it carries a `tool`
field: a non-empty object without a `tool` field still takes the tool
branch, so the session dispatches (an unnamed) tool on every such turn
and ends at the ceiling without completing. -/
theorem C4_tool_call_detection :
    (∃ v, parse_tool_call toolCallResponse = some v ∧
      getField v "tool".toList = some (.str "consultar_ley".toList) ∧
      getField v "args".toList = some (.str "fianza".toList) ∧
      truthy v = true) ∧
    parse_tool_call malformedResponse = none ∧
    (∃ v, parse_tool_call noToolFieldResponse = some v ∧ truthy v = true ∧
      getField v "tool".toList = none) ∧
    (agentLoop fun _ => .ok noToolFieldResponse).2 = .maxTurnsExhausted ∧
    (∀ t v, parse_tool_call t = some v → ∃ fields, v = .obj fields) ∧
    (∀ t, parse_tool_call t = none → toolRequested t = false ∧
      ∀ rs : Nat → TurnResult, rs 0 = .ok t →
        (agentLoop rs).2 = .completed t 0) := by
  refine ⟨⟨.obj [("tool".toList, .str "consultar_ley".toList),
      ("args".toList, .str "fianza".toList)], by rfl, by rfl, by rfl, by rfl⟩,
    by rfl,
    ⟨.obj [("x".toList, .num 1)], by rfl, by rfl, by rfl⟩,
    by decide,
    parse_tool_call_obj,
    ?_⟩
  intro t hnone
  have htr : toolRequested t = false := by
    unfold toolRequested
    rw [hnone]
  refine ⟨htr, ?_⟩
  intro rs h0
  exact agentLoopGo_outcome_done 2 h0 htr

/-- C4 witness: the no-payload consequence applied to a plain response:
no tool call is detected and the session completes on the first turn. -/
theorem C4_tool_call_detection_witness :
    toolRequested plainResponse = false ∧
    (agentLoop fun _ => .ok plainResponse).2 = .completed plainResponse 0 := by
  have h := C4_tool_call_detection.2.2.2.2.2 plainResponse (by rfl)
  exact ⟨h.1, h.2 (fun _ => .ok plainResponse) rfl⟩

/-- C4 counterexample: the payload of `noToolFieldResponse` decodes to a
non-empty object with no `tool` field, yet the loop treats it as a tool
request, refuting the claimed exact characterization. -/
theorem C4_tool_call_detection_counterexample : ¬ toolFieldClaim := by
  intro h
  obtain ⟨v, hv, hvt⟩ := (h noToolFieldResponse).mp (by rfl)
  have hv2 : parse_tool_call noToolFieldResponse
      = some (.obj [("x".toList, .num 1)]) := by rfl
  rw [hv2] at hv
  cases Option.some.inj hv
  exact hvt rfl

/-- C5: corrected.  An extraction failure escapes the session generator
as a raised exception after the extracting progress event — no terminal
error event is emitted for it; the emitted error event exists only for
reasoning-service failures, which end the session in the errored outcome
without an exception. -/
theorem C5_extraction_failure :
    (∀ (msg : List Char) (rs : Nat → TurnResult),
      analyze_contract_streaming (.error msg) rs = .raised msg [.extracting] ∧
      ∀ evs out, analyze_contract_streaming (.error msg) rs ≠ .normal evs out) ∧
    (∀ (text msg : List Char) (rs : Nat → TurnResult), rs 0 = .error msg →
      analyze_contract_streaming (.ok text) rs
        = .normal [.extracting, .analyzing 0, .errorEvent msg] (.errored msg)) := by
  constructor
  · intro msg rs
    exact ⟨rfl, fun evs out hcontra => SessionRun.noConfusion hcontra⟩
  · intro text msg rs h0
    simp [analyze_contract_streaming, agentLoop, agentLoopGo, h0]

/-- C5 witness: a concrete extraction failure raises, and a concrete
reasoning failure emits the terminal error event. -/
theorem C5_extraction_failure_witness :
    analyze_contract_streaming (.error "sin PDF".toList) (fun _ => .ok [])
      = .raised "sin PDF".toList [.extracting] ∧
    analyze_contract_streaming (.ok "texto".toList) (fun _ => .error "caida".toList)
      = .normal [.extracting, .analyzing 0, .errorEvent "caida".toList]
          (.errored "caida".toList) :=
  ⟨(C5_extraction_failure.1 "sin PDF".toList (fun _ => .ok [])).1,
    C5_extraction_failure.2 "texto".toList "caida".toList
      (fun _ => .error "caida".toList) rfl⟩

/-- C5 counterexample: the claim that extraction failures surface as an
emitted error outcome fails — the session result is an escaped exception,
never a normal run. -/
theorem C5_extraction_failure_counterexample : ¬ extractionErrorClaim := by
  intro h
  obtain ⟨evs, he⟩ := h "sin PDF".toList (fun _ => .ok [])
  exact SessionRun.noConfusion he
